import Mathlib

/-!
Verification of the mcp-net provider registry and dispatcher
(`server/mcp_manager.go`, `server/server.go`).

The Go code is shallowly embedded: Go strings are Lean `String`s, the Go
`map[string]*MCPInfo` is an association list with Go-map insert semantics
(overwrite on key collision), `error` returns become `Except GoError`, and
process/pipe I/O is abstracted by oracle functions passed as parameters
(`discover` for `getToolInfos`, `session` for the spawn/handshake/call
sequence of `ExecuteTool`).
-/

namespace MCPNet

/-- A JSON value, as carried by `interface{}` fields in the Go code. -/
inductive JsonValue where
  | null : JsonValue
  | bool (b : Bool) : JsonValue
  | num (n : Int) : JsonValue
  | str (s : String) : JsonValue
  | arr (elems : List JsonValue) : JsonValue
  | obj (fields : List (String × JsonValue)) : JsonValue

/-- `ToolInfo` from mcp_manager.go: name, description, parameter schema. -/
structure ToolInfo where
  name : String
  description : String
  parameters : List (String × JsonValue)

/-- `MCPInfo` from mcp_manager.go: identifier, executable path, cached tools. -/
structure MCPInfo where
  name : String
  path : String
  toolInfos : List ToolInfo

/-- The registry snapshot: Go `map[string]*MCPInfo` as an association list. -/
abbrev MCPMap := List (String × MCPInfo)

/-- Go map read `m[k]`. -/
def mapLookup : MCPMap → String → Option MCPInfo
  | [], _ => none
  | (k, v) :: rest, key => if k = key then some v else mapLookup rest key

/-- Go map write `m[k] = v` (overwrites an existing binding). -/
def mapInsert : MCPMap → String → MCPInfo → MCPMap
  | [], key, v => [(key, v)]
  | (k, w) :: rest, key, v =>
      if k = key then (key, v) :: rest else (k, w) :: mapInsert rest key v

/-- Errors produced by the Go code (each constructor is one `fmt.Errorf`
call site; `transport` stands for the spawn/pipe failure sites, carrying
the wrapped OS error text). -/
inductive GoError where
  | invalidToolNameFormat (toolName : String)
  | mcpNotFound (mcpName : String)
  | transport (stage : String) (inner : String)
  | parseCallResponse (inner : String)
  | mcpToolError (message : String) (code : Int)
  | methodNotImplemented (method : String)
  | parseRequest (inner : String)

/-- `strings.SplitN(s, sep, 2)` on a character list: `none` when the
separator does not occur (Go returns a single-element slice), otherwise
the pieces before and after the first occurrence. -/
def splitOnFirst (sep : Char) : List Char → Option (List Char × List Char)
  | [] => none
  | c :: cs =>
      if c = sep then some ([], cs)
      else
        match splitOnFirst sep cs with
        | none => none
        | some (a, b) => some (c :: a, b)

/-- `strings.SplitN(toolName, ".", 2)` restricted to the only two shapes the
Go code distinguishes (`len(parts) != 2` versus `len(parts) == 2`). -/
def splitN2 (s : String) : Option (String × String) :=
  match splitOnFirst '.' s.data with
  | none => none
  | some (a, b) => some (⟨a⟩, ⟨b⟩)

/-- `MCPManager.GetMCPForTool`: split the namespaced name on the first dot,
then look the identifier up in the snapshot. -/
def GetMCPForTool (m : MCPMap) (toolName : String) :
    Except GoError (MCPInfo × String) :=
  match splitN2 toolName with
  | none => .error (.invalidToolNameFormat toolName)
  | some (mcpName, localToolName) =>
      match mapLookup m mcpName with
      | none => .error (.mcpNotFound mcpName)
      | some mcpInfo => .ok (mcpInfo, localToolName)

/-- `MCPManager.GetAllTools`: every tool of every endpoint, its name
prefixed with the owning identifier and a dot. -/
def GetAllTools (m : MCPMap) : List ToolInfo :=
  m.flatMap fun p =>
    p.2.toolInfos.map fun tool => { tool with name := p.1 ++ "." ++ tool.name }

/-- The type of a non-directory file-system entry, as distinguished by the
mode's type bits (the Go code never inspects these: it only checks
`d.IsDir()` and the permission bits). -/
inductive FileType where
  | regular : FileType
  | symlink : FileType
  | fifo : FileType
  | socket : FileType
  | device : FileType
deriving DecidableEq

/-- A file-system subtree as seen by `filepath.WalkDir`: either a
non-directory entry (with its type and permission bits) or a directory
with its children in walk order. -/
inductive FSNode where
  | file (name : String) (ftype : FileType) (perm : Nat) : FSNode
  | dir (name : String) (entries : List FSNode) : FSNode

/-- The entry's base name, `filepath.Base(path)`. -/
def FSNode.nodeName : FSNode → String
  | .file n _ _ => n
  | .dir n _ => n

/-- Drop the suffix starting at the LAST dot, `none` when there is no dot:
the list-level core of stripping `filepath.Ext`. -/
def dropLastDotSuffix : List Char → Option (List Char)
  | [] => none
  | c :: cs =>
      match dropLastDotSuffix cs with
      | some rest => some (c :: rest)
      | none => if c = '.' then some [] else none

/-- The base name with `filepath.Ext` stripped (unchanged when the name has
no dot), as computed at mcp_manager.go lines 74-78. -/
def stripExt (name : String) : String :=
  match dropLastDotSuffix name.data with
  | some kept => ⟨kept⟩
  | none => name

/-- The tool list `LoadMCPs` stores for a candidate at `path`: the result
of `getToolInfos` when it succeeded, and the nil slice when it failed
(mcp_manager.go lines 86-92, where the error is only logged). -/
def discoveredTools (discover : String → Except GoError (List ToolInfo))
    (path : String) : List ToolInfo :=
  match discover path with
  | .ok ts => ts
  | .error _ => []

mutual
/-- One `WalkDir` visit of the callback in `LoadMCPs`: directories are
skipped (but walked into), a non-directory entry with no executable
permission bit is skipped, and any other entry is registered under its
stripped base name with the tools its discovery handshake reported
(an empty list when discovery failed, which is only logged). -/
def walkNode (discover : String → Except GoError (List ToolInfo)) :
    String → FSNode → MCPMap → MCPMap
  | parentPath, .file fname _ perm, m =>
      if perm &&& 0o111 == 0 then m
      else
        let path := parentPath ++ "/" ++ fname
        let nm := stripExt fname
        mapInsert m nm ⟨nm, path, discoveredTools discover path⟩
  | parentPath, .dir dname entries, m =>
      walkList discover (parentPath ++ "/" ++ dname) entries m
/-- Walk the children of a directory left to right, threading the map. -/
def walkList (discover : String → Except GoError (List ToolInfo)) :
    String → List FSNode → MCPMap → MCPMap
  | _, [], m => m
  | p, e :: es, m => walkList discover p es (walkNode discover p e m)
end

/-- `MCPManager.LoadMCPs`: clear the map, then `filepath.WalkDir` over the
configured directory (the root directory entry itself is skipped by the
`d.IsDir()` check; its children are visited at `mcpDirectory ++ "/" ++ name`).
With no I/O error from the walk itself the callback never returns a
non-nil error, so the reload returns `nil`. -/
def LoadMCPs (discover : String → Except GoError (List ToolInfo))
    (mcpDirectory : String) (rootEntries : List FSNode) :
    Except GoError MCPMap :=
  .ok (walkList discover mcpDirectory rootEntries [])

/-- The JSON-RPC error object of a decoded `tools/call` response. -/
structure RPCError where
  code : Int
  message : String

/-- The decoded `tools/call` response struct of `ExecuteTool`
(`Result interface{}`, nil modelled as `JsonValue.null`; `Error *struct`). -/
structure CallResponse where
  result : JsonValue
  error : Option RPCError

/-- Everything that can come out of the spawn / initialize / tools-call /
read sequence of `ExecuteTool`, lines 221-295: a transport failure at one
of the pipe or process stages, an undecodable response, or a decoded
response struct. -/
inductive SessionOutcome where
  | transportFailure (stage : String) (inner : String) : SessionOutcome
  | undecodable (inner : String) : SessionOutcome
  | response (resp : CallResponse) : SessionOutcome

/-- The post-resolution half of `ExecuteTool` (lines 221-301): drive the
provider process at `path` through initialize and `tools/call name
arguments`, then map the decoded response: a carried JSON-RPC error object
becomes the `MCP tool error` failure, otherwise the `result` is returned.
`session` abstracts the process I/O. -/
def runToolCall
    (session : String → String → List (String × JsonValue) → SessionOutcome)
    (path localToolName : String) (parameters : List (String × JsonValue)) :
    Except GoError JsonValue :=
  match session path localToolName parameters with
  | .transportFailure stage inner => .error (.transport stage inner)
  | .undecodable inner => .error (.parseCallResponse inner)
  | .response resp =>
      match resp.error with
      | some e => .error (.mcpToolError e.message e.code)
      | none => .ok resp.result

/-- `MCPManager.ExecuteTool`: resolve the namespaced name, then run the
session against the resolved endpoint's executable. -/
def ExecuteTool
    (session : String → String → List (String × JsonValue) → SessionOutcome)
    (m : MCPMap) (toolName : String)
    (parameters : List (String × JsonValue)) : Except GoError JsonValue :=
  match GetMCPForTool m toolName with
  | .error e => .error e
  | .ok (mcpInfo, localToolName) =>
      runToolCall session mcpInfo.path localToolName parameters

/-- The text `fmt.Errorf` / `%v` produces for each error (mcp_manager.go
and server.go format strings). -/
def GoError.render : GoError → String
  | .invalidToolNameFormat t =>
      "invalid tool name format, expected \x27mcp.tool\x27: " ++ t
  | .mcpNotFound n => "MCP not found: " ++ n
  | .transport stage inner => stage ++ ": " ++ inner
  | .parseCallResponse inner =>
      "failed to parse tools/call response: " ++ inner
  | .mcpToolError msg code =>
      "MCP tool error: " ++ msg ++ " (code " ++ toString code ++ ")"
  | .methodNotImplemented meth => "method not implemented: " ++ meth
  | .parseRequest inner => "failed to parse request: " ++ inner

/-- `params` of a `tools/call` request as decoded by `handleToolsCall`. -/
structure CallParams where
  name : String
  arguments : List (String × JsonValue)

/-- An inbound JSON-RPC request after decoding (the code decodes the
envelope in `ProcessRequest` and the params again in `handleToolsCall`;
both reads of the same raw bytes are modelled by fields of one record,
abstracting the byte-level JSON parsing). -/
structure RawRequest where
  jsonrpc : String
  id : JsonValue
  method : String
  params : CallParams

/-- Serialization of one `ToolInfo` (`omitempty` on description and
parameters, as in the struct tags). -/
def ToolInfo.toJson (t : ToolInfo) : JsonValue :=
  .obj ([("name", .str t.name)]
    ++ (if t.description = "" then [] else [("description", .str t.description)])
    ++ (if t.parameters.isEmpty then []
        else [("parameters", JsonValue.obj t.parameters)]))

/-- `MCPServer.handleToolsList`: wrap the aggregated catalog in a JSON-RPC
result frame carrying the request id. Serialization to bytes is
abstracted; the frame is kept structured. -/
def handleToolsList (m : MCPMap) (id : JsonValue) : Except GoError JsonValue :=
  .ok (.obj [("jsonrpc", .str "2.0"), ("id", id),
    ("result", .obj [("tools", .arr ((GetAllTools m).map ToolInfo.toJson))])])

/-- `MCPServer.handleToolsCall`: run `ExecuteTool` on the decoded params;
any failure becomes a JSON-RPC error frame with code -32000 whose message
wraps the failure text; success becomes a result frame. Both frames carry
the request id. -/
def handleToolsCall
    (session : String → String → List (String × JsonValue) → SessionOutcome)
    (m : MCPMap) (id : JsonValue) (params : CallParams) :
    Except GoError JsonValue :=
  match ExecuteTool session m params.name params.arguments with
  | .error err =>
      .ok (.obj [("jsonrpc", .str "2.0"), ("id", id),
        ("error", .obj [("code", .num (-32000)),
          ("message", .str ("Failed to execute tool: " ++ err.render))])])
  | .ok result =>
      .ok (.obj [("jsonrpc", .str "2.0"), ("id", id), ("result", result)])

/-- `MCPServer.ProcessRequest`: dispatch on the decoded method; only
`tools/list` and `tools/call` are handled, everything else returns the
`method not implemented` error to the transport. -/
def ProcessRequest
    (session : String → String → List (String × JsonValue) → SessionOutcome)
    (m : MCPMap) (req : RawRequest) : Except GoError JsonValue :=
  if req.method = "tools/list" then handleToolsList m req.id
  else if req.method = "tools/call" then
    handleToolsCall session m req.id req.params
  else .error (.methodNotImplemented req.method)

/-! ### Concurrency model: readers versus an in-flight reload

`LoadMCPs` holds the write side of `m.mutex` for its whole body; the map is
mutated in steps (the clear at line 51, then one insert per registered
entry during the walk).  `GetAllTools` reads the whole map under the read
side.  The interleaving of one reload with any number of readers is
modelled as a labelled-free transition system: the writer's mutations are
reified as a list of operations, and lock acquisition guards mirror
`sync.RWMutex` (`Lock` needs no readers and no writer; `RLock` is possible
whenever no writer holds the lock — a superset of Go's writer-starvation
rule, so every real schedule is a schedule of the model). -/

/-- One mutation of `m.mcpMap` performed inside `LoadMCPs` while the write
lock is held. -/
inductive WriterOp where
  | clear : WriterOp
  | insert (key : String) (v : MCPInfo) : WriterOp

/-- Apply one mutation to the map. -/
def applyOp : MCPMap → WriterOp → MCPMap
  | _, .clear => []
  | m, .insert k v => mapInsert m k v

/-- Apply a sequence of mutations left to right. -/
def applyOps (m : MCPMap) (ops : List WriterOp) : MCPMap :=
  ops.foldl applyOp m

mutual
/-- The map mutations the `WalkDir` callback performs for one entry. -/
def walkNodeOps (discover : String → Except GoError (List ToolInfo)) :
    String → FSNode → List WriterOp
  | parentPath, .file fname _ perm =>
      if perm &&& 0o111 == 0 then []
      else
        let path := parentPath ++ "/" ++ fname
        let nm := stripExt fname
        [.insert nm ⟨nm, path, discoveredTools discover path⟩]
  | parentPath, .dir dname entries =>
      walkListOps discover (parentPath ++ "/" ++ dname) entries
/-- The map mutations for a directory's children, in walk order. -/
def walkListOps (discover : String → Except GoError (List ToolInfo)) :
    String → List FSNode → List WriterOp
  | _, [] => []
  | p, e :: es => walkNodeOps discover p e ++ walkListOps discover p es
end

/-- The full mutation sequence of one `LoadMCPs` call: the clear, then the
inserts of the walk. -/
def loadOps (discover : String → Except GoError (List ToolInfo))
    (mcpDirectory : String) (rootEntries : List FSNode) : List WriterOp :=
  .clear :: walkListOps discover mcpDirectory rootEntries

/-- Where the single reloading goroutine stands relative to `m.mutex`. -/
inductive WPhase where
  | idle : WPhase
  | holding : WPhase
  | done : WPhase
deriving DecidableEq

/-- A configuration of the manager shared between readers and one reload:
reader count on the `RWMutex`, the writer's phase, the shared map, and the
writer's not-yet-applied mutations. -/
structure SysState where
  readers : Nat
  wphase : WPhase
  mcpMap : MCPMap
  pending : List WriterOp

/-- Interleaved steps of one `LoadMCPs` call and any number of
`GetAllTools` readers, under `sync.RWMutex` discipline. -/
inductive SysStep : SysState → SysState → Prop where
  | wAcquire (s : SysState) :
      s.readers = 0 → s.wphase = .idle →
      SysStep s { s with wphase := .holding }
  | wOp (s : SysState) (op : WriterOp) (rest : List WriterOp) :
      s.wphase = .holding → s.pending = op :: rest →
      SysStep s { s with mcpMap := applyOp s.mcpMap op, pending := rest }
  | wRelease (s : SysState) :
      s.wphase = .holding → s.pending = [] →
      SysStep s { s with wphase := .done }
  | rAcquire (s : SysState) :
      s.wphase ≠ .holding →
      SysStep s { s with readers := s.readers + 1 }
  | rRelease (s : SysState) :
      0 < s.readers →
      SysStep s { s with readers := s.readers - 1 }

/-- Configurations reachable from a given one. -/
inductive SysReachable (init : SysState) : SysState → Prop where
  | refl : SysReachable init init
  | tail {s t : SysState} :
      SysReachable init s → SysStep s t → SysReachable init t

/-- The initial configuration: `pre` is the registry contents before the
reload, `ops` the reload's mutation sequence, no lock held. -/
def initState (pre : MCPMap) (ops : List WriterOp) : SysState :=
  { readers := 0, wphase := .idle, mcpMap := pre, pending := ops }

/-! ### Helper lemmas -/

theorem data_append (a b : String) : (a ++ b).data = a.data ++ b.data := by
  cases a; cases b; rfl

theorem splitOnFirst_none_of_not_mem {sep : Char} :
    ∀ {cs : List Char}, sep ∉ cs → splitOnFirst sep cs = none
  | [], _ => rfl
  | c :: cs, h => by
      have hc : ¬c = sep := fun he => h (he ▸ List.mem_cons_self c cs)
      have hcs : sep ∉ cs := fun hm => h (List.mem_cons_of_mem c hm)
      rw [splitOnFirst, if_neg hc, splitOnFirst_none_of_not_mem hcs]

theorem not_mem_of_splitOnFirst_none {sep : Char} :
    ∀ {cs : List Char}, splitOnFirst sep cs = none → sep ∉ cs
  | [], _ => List.not_mem_nil sep
  | c :: cs, h => by
      rw [splitOnFirst] at h
      by_cases hc : c = sep
      · rw [if_pos hc] at h
        exact absurd h (by simp)
      · rw [if_neg hc] at h
        cases hs : splitOnFirst sep cs with
        | none =>
            intro hmem
            rcases List.mem_cons.mp hmem with h1 | h2
            · exact hc h1.symm
            · exact not_mem_of_splitOnFirst_none hs h2
        | some ab =>
            rw [hs] at h
            obtain ⟨a, b⟩ := ab
            exact absurd h (by simp)

theorem splitOnFirst_append {sep : Char} {xs : List Char}
    (hx : sep ∉ xs) (ys : List Char) :
    splitOnFirst sep (xs ++ sep :: ys) = some (xs, ys) := by
  induction xs with
  | nil => simp [splitOnFirst]
  | cons c cs ih =>
      have hc : c ≠ sep := fun h => hx (h ▸ List.mem_cons_self c cs)
      have hcs : sep ∉ cs := fun h => hx (List.mem_cons_of_mem c h)
      rw [List.cons_append, splitOnFirst, if_neg hc, ih hcs]

theorem splitOnFirst_eq_some {sep : Char} {cs a b : List Char}
    (h : splitOnFirst sep cs = some (a, b)) :
    cs = a ++ sep :: b ∧ sep ∉ a := by
  induction cs generalizing a b with
  | nil => simp [splitOnFirst] at h
  | cons c cs ih =>
      rw [splitOnFirst] at h
      by_cases hc : c = sep
      · rw [if_pos hc] at h
        have h2 := Option.some.inj h
        rw [Prod.mk.injEq] at h2
        obtain ⟨ha, hb⟩ := h2
        subst ha; subst hb; subst hc
        simp
      · rw [if_neg hc] at h
        cases hsplit : splitOnFirst sep cs with
        | none => rw [hsplit] at h; exact absurd h (by simp)
        | some ab =>
            obtain ⟨a0, b0⟩ := ab
            rw [hsplit] at h
            have h2 := Option.some.inj h
            rw [Prod.mk.injEq] at h2
            obtain ⟨ha, hb⟩ := h2
            obtain ⟨hcs, hmem⟩ := ih hsplit
            subst hb
            rw [← ha]
            refine ⟨by rw [hcs]; rfl, ?_⟩
            intro hin
            rcases List.mem_cons.mp hin with h1 | h2
            · exact hc h1.symm
            · exact hmem h2

theorem splitN2_compose {id : String} (t : String) (hid : '.' ∉ id.data) :
    splitN2 (id ++ "." ++ t) = some (id, t) := by
  unfold splitN2
  have hdata : (id ++ "." ++ t).data = id.data ++ '.' :: t.data := by
    rw [data_append, data_append, List.append_assoc]
    rfl
  rw [hdata, splitOnFirst_append hid]

theorem splitN2_none_iff {s : String} :
    splitN2 s = none ↔ '.' ∉ s.data := by
  constructor
  · intro h
    unfold splitN2 at h
    cases h2 : splitOnFirst '.' s.data with
    | none => exact not_mem_of_splitOnFirst_none h2
    | some ab =>
        rw [h2] at h
        obtain ⟨a, b⟩ := ab
        exact absurd h (by simp)
  · intro h
    unfold splitN2
    rw [splitOnFirst_none_of_not_mem h]

theorem splitN2_decompose {s a b : String} (h : splitN2 s = some (a, b)) :
    s = a ++ "." ++ b ∧ '.' ∉ a.data := by
  unfold splitN2 at h
  cases hsplit : splitOnFirst '.' s.data with
  | none => rw [hsplit] at h; exact absurd h (by simp)
  | some ab =>
      obtain ⟨x, y⟩ := ab
      rw [hsplit] at h
      have h2 := Option.some.inj h
      rw [Prod.mk.injEq] at h2
      obtain ⟨ha, hb⟩ := h2
      obtain ⟨hs, hmem⟩ := splitOnFirst_eq_some hsplit
      constructor
      · apply String.ext
        rw [data_append, data_append, hs, ← ha, ← hb, List.append_assoc]
        rfl
      · rw [← ha]; exact hmem

theorem resolve_compose {m : MCPMap} {id : String} {info : MCPInfo}
    (t : String) (hid : '.' ∉ id.data) (hmem : mapLookup m id = some info) :
    GetMCPForTool m (id ++ "." ++ t) = .ok (info, t) := by
  simp [GetMCPForTool, splitN2_compose t hid, hmem]

/-- A concrete endpoint used by the evaluation witnesses. -/
def calcInfo : MCPInfo :=
  ⟨"calculator-mcp", "/mcps/calculator-mcp",
    [⟨"add", "Add two numbers", []⟩, ⟨"multiply", "", []⟩, ⟨"divide", "", []⟩]⟩

/-- A second concrete endpoint used by the evaluation witnesses. -/
def helloInfo : MCPInfo :=
  ⟨"hello-mcp", "/mcps/hello-mcp", [⟨"hello", "", []⟩]⟩

/-! ### Claims -/

/-- C1. Namespacing round-trip: for every identifier without a dot that is
present in the snapshot and every local tool name `t` (which may itself
contain dots), resolving `id ++ "." ++ t` succeeds and returns exactly the
endpoint registered under `id` together with `t`. -/
theorem namespacing_roundtrip (m : MCPMap) (id t : String) (info : MCPInfo)
    (hid : '.' ∉ id.data) (hmem : mapLookup m id = some info) :
    GetMCPForTool m (id ++ "." ++ t) = .ok (info, t) :=
  resolve_compose t hid hmem

/-- Evaluation of C1 on a concrete snapshot, with a local name that itself
contains a dot. -/
theorem namespacing_roundtrip_witness :
    ('.' ∉ "calculator-mcp".data) ∧
    mapLookup [("hello-mcp", helloInfo), ("calculator-mcp", calcInfo)]
      "calculator-mcp" = some calcInfo ∧
    GetMCPForTool [("hello-mcp", helloInfo), ("calculator-mcp", calcInfo)]
      ("calculator-mcp" ++ "." ++ "a.b") = .ok (calcInfo, "a.b") :=
  ⟨by decide, rfl,
    namespacing_roundtrip _ "calculator-mcp" "a.b" calcInfo (by decide) rfl⟩

/-- C2. Aggregation correctness: `GetAllTools` returns exactly the tools of
all endpoints with names prefixed by the owning identifier and a dot — the
entry count is the sum of the per-endpoint counts, and an entry occurs in
the result iff it is the prefixed copy of some endpoint's tool. -/
theorem aggregation_correct (m : MCPMap) :
    (GetAllTools m).length = (m.map fun p => p.2.toolInfos.length).sum ∧
    ∀ t : ToolInfo, t ∈ GetAllTools m ↔
      ∃ p ∈ m, ∃ tool ∈ p.2.toolInfos,
        t = { tool with name := p.1 ++ "." ++ tool.name } := by
  constructor
  · simp [GetAllTools, List.length_flatMap, Function.comp_def, List.length_map]
  · intro t
    simp only [GetAllTools, List.mem_flatMap, List.mem_map]
    constructor
    · rintro ⟨p, hp, tool, htool, heq⟩
      exact ⟨p, hp, tool, htool, heq.symm⟩
    · rintro ⟨p, hp, tool, htool, heq⟩
      exact ⟨p, hp, tool, htool, heq.symm⟩

/-- C4. Resolution failure conditions: resolution fails with the
invalid-format error when the name has no dot, fails with the not-found
error for `id ++ "." ++ t` whenever `id` is absent from the snapshot (the
`ghost` case), and fails in no other situation.  The Go function returns
`nil, ""` alongside the error; in the embedding the `Except.error` result
carries no endpoint and no local name by construction. -/
theorem resolution_failure_conditions (m : MCPMap) :
    (∀ name : String, '.' ∉ name.data →
      GetMCPForTool m name = .error (.invalidToolNameFormat name)) ∧
    (∀ id t : String, '.' ∉ id.data → mapLookup m id = none →
      GetMCPForTool m (id ++ "." ++ t) = .error (.mcpNotFound id)) ∧
    (∀ name : String, (∃ e, GetMCPForTool m name = .error e) ↔
      ('.' ∉ name.data ∨
        ∃ id t, name = id ++ "." ++ t ∧ '.' ∉ id.data ∧
          mapLookup m id = none)) := by
  refine ⟨?_, ?_, ?_⟩
  · intro name hname
    simp [GetMCPForTool, splitN2_none_iff.mpr hname]
  · intro id t hid habs
    simp [GetMCPForTool, splitN2_compose t hid, habs]
  · intro name
    constructor
    · rintro ⟨e, he⟩
      cases hsplit : splitN2 name with
      | none => exact Or.inl (splitN2_none_iff.mp hsplit)
      | some ab =>
          obtain ⟨a, b⟩ := ab
          obtain ⟨hs, hmem⟩ := splitN2_decompose hsplit
          refine Or.inr ⟨a, b, hs, hmem, ?_⟩
          cases hlook : mapLookup m a with
          | none => rfl
          | some info =>
              have hok : GetMCPForTool m name = .ok (info, b) := by
                simp [GetMCPForTool, hsplit, hlook]
              rw [hok] at he
              exact absurd he (by simp)
    · rintro (hnodot | ⟨id, t, hname, hid, habs⟩)
      · exact ⟨.invalidToolNameFormat name,
          by simp [GetMCPForTool, splitN2_none_iff.mpr hnodot]⟩
      · refine ⟨.mcpNotFound id, ?_⟩
        subst hname
        simp [GetMCPForTool, splitN2_compose t hid, habs]

/-- Evaluation of C4: a dot-free name fails with the format error, and a
`ghost`-prefixed name fails with the not-found error on a snapshot without
a `ghost` endpoint. -/
theorem resolution_failure_conditions_witness :
    GetMCPForTool [("calculator-mcp", calcInfo)] "nodots" =
      .error (.invalidToolNameFormat "nodots") ∧
    GetMCPForTool [("calculator-mcp", calcInfo)]
      ("ghost" ++ "." ++ "doSomething") = .error (.mcpNotFound "ghost") :=
  ⟨(resolution_failure_conditions [("calculator-mcp", calcInfo)]).1
      "nodots" (by decide),
    (resolution_failure_conditions [("calculator-mcp", calcInfo)]).2.1
      "ghost" "doSomething" (by decide) rfl⟩

/-- C10. Resolution never constrains the local name: for an identifier in
the snapshot, any suffix resolves — including the empty string and names
absent from the endpoint's cached catalog — and `ExecuteTool` then runs
the provider session at the endpoint's executable with that local name
unchanged, never consulting `toolInfos` (the failure, if any, is the
provider's answer). -/
theorem resolution_ignores_catalog
    (session : String → String → List (String × JsonValue) → SessionOutcome)
    (m : MCPMap) (id t : String) (info : MCPInfo)
    (params : List (String × JsonValue))
    (hid : '.' ∉ id.data) (hmem : mapLookup m id = some info) :
    GetMCPForTool m (id ++ "." ++ t) = .ok (info, t) ∧
    ExecuteTool session m (id ++ "." ++ t) params =
      runToolCall session info.path t params := by
  have h := resolve_compose (m := m) t hid hmem
  exact ⟨h, by simp [ExecuteTool, h]⟩

/-- Evaluation of C10: the empty local name and a local name not in the
catalog both resolve and reach the provider session. -/
theorem resolution_ignores_catalog_witness :
    (("" : String) ∉ calcInfo.toolInfos.map ToolInfo.name ∧
      ExecuteTool (fun _ _ _ => .response ⟨.null, none⟩)
        [("calculator-mcp", calcInfo)] ("calculator-mcp" ++ "." ++ "") [] =
        runToolCall (fun _ _ _ => .response ⟨.null, none⟩)
          calcInfo.path "" []) ∧
    (("nonexistent" : String) ∉ calcInfo.toolInfos.map ToolInfo.name ∧
      ExecuteTool (fun _ _ _ => .response ⟨.null, none⟩)
        [("calculator-mcp", calcInfo)]
        ("calculator-mcp" ++ "." ++ "nonexistent") [] =
        runToolCall (fun _ _ _ => .response ⟨.null, none⟩)
          calcInfo.path "nonexistent" []) :=
  ⟨⟨by decide,
      (resolution_ignores_catalog (fun _ _ _ => .response ⟨.null, none⟩)
        [("calculator-mcp", calcInfo)] "calculator-mcp" "" calcInfo []
        (by decide) rfl).2⟩,
    ⟨by decide,
      (resolution_ignores_catalog (fun _ _ _ => .response ⟨.null, none⟩)
        [("calculator-mcp", calcInfo)] "calculator-mcp" "nonexistent"
        calcInfo [] (by decide) rfl).2⟩⟩

/-! ### Map and walk lemmas -/

theorem mapLookup_insert_self (m : MCPMap) (k : String) (v : MCPInfo) :
    mapLookup (mapInsert m k v) k = some v := by
  induction m with
  | nil => simp [mapInsert, mapLookup]
  | cons p rest ih =>
      obtain ⟨k0, v0⟩ := p
      by_cases h : k0 = k
      · subst h; simp [mapInsert, mapLookup]
      · simp [mapInsert, mapLookup, h, ih]

theorem mapLookup_insert_ne (m : MCPMap) (k : String) (v : MCPInfo)
    {key : String} (h : key ≠ k) :
    mapLookup (mapInsert m k v) key = mapLookup m key := by
  induction m with
  | nil => simp [mapInsert, mapLookup, (Ne.symm h : k ≠ key)]
  | cons p rest ih =>
      obtain ⟨k0, v0⟩ := p
      by_cases h0 : k0 = k
      · subst h0
        simp [mapInsert, mapLookup, (Ne.symm h : k0 ≠ key)]
      · by_cases h1 : k0 = key
        · subst h1; simp [mapInsert, mapLookup, h0]
        · simp [mapInsert, mapLookup, h0, h1, ih]

theorem mapLookup_insert_isSome (m : MCPMap) (k : String) (v : MCPInfo)
    (key : String) :
    (mapLookup (mapInsert m k v) key).isSome = true ↔
      (mapLookup m key).isSome = true ∨ key = k := by
  by_cases h : key = k
  · subst h; simp [mapLookup_insert_self]
  · simp [mapLookup_insert_ne m k v h, h]

mutual
/-- The stripped names of the non-directory executable entries of one
subtree, in walk order — the identifiers `LoadMCPs` registers from it. -/
def execNamesNode : FSNode → List String
  | .file n _ perm => if perm &&& 0o111 == 0 then [] else [stripExt n]
  | .dir _ es => execNamesList es
/-- The stripped names of the non-directory executable entries of a forest. -/
def execNamesList : List FSNode → List String
  | [] => []
  | e :: es => execNamesNode e ++ execNamesList es
end

mutual
theorem lookup_walkNode_isSome
    (discover : String → Except GoError (List ToolInfo)) :
    ∀ (p : String) (e : FSNode) (m : MCPMap) (nm : String),
      ((mapLookup (walkNode discover p e m) nm).isSome = true ↔
        (mapLookup m nm).isSome = true ∨ nm ∈ execNamesNode e)
  | p, .file n ft perm, m, nm => by
      rw [walkNode, execNamesNode]
      by_cases h : perm &&& 0o111 == 0
      · simp [h]
      · simp only [h, if_false, Bool.false_eq_true]
        rw [mapLookup_insert_isSome]
        simp
  | p, .dir n es, m, nm => by
      rw [walkNode, execNamesNode]
      exact lookup_walkList_isSome discover (p ++ "/" ++ n) es m nm
theorem lookup_walkList_isSome
    (discover : String → Except GoError (List ToolInfo)) :
    ∀ (p : String) (es : List FSNode) (m : MCPMap) (nm : String),
      ((mapLookup (walkList discover p es m) nm).isSome = true ↔
        (mapLookup m nm).isSome = true ∨ nm ∈ execNamesList es)
  | p, [], m, nm => by rw [walkList, execNamesList]; simp
  | p, e :: es, m, nm => by
      rw [walkList, execNamesList]
      rw [lookup_walkList_isSome discover p es (walkNode discover p e m) nm]
      rw [lookup_walkNode_isSome discover p e m nm]
      simp [List.mem_append, or_assoc]
end

/-- The discovery oracle used by counterexample evaluations: every
candidate reports zero tools. -/
def discNone : String → Except GoError (List ToolInfo) := fun _ => .ok []

/-- C3, counterexample. `LoadMCPs` walks the directory with
`filepath.WalkDir`, which is recursive, and its callback filters only on
`d.IsDir()` and the permission bits: an executable regular file inside a
subdirectory and an executable fifo at top level are both registered as
endpoints, which the claim says never happens. -/
theorem load_scan_counterexample :
    ∃ M : MCPMap,
      LoadMCPs discNone "/mcps"
        [FSNode.dir "sub" [FSNode.file "tool" .regular 0o755],
         FSNode.file "pipe" .fifo 0o700] = .ok M ∧
      mapLookup M "tool" = some ⟨"tool", "/mcps/sub/tool", []⟩ ∧
      mapLookup M "pipe" = some ⟨"pipe", "/mcps/pipe", []⟩ :=
  ⟨_, rfl, rfl, rfl⟩

/-- C3, amended. The scan is the recursive `filepath.WalkDir`: a directory
entry (at any depth) is registered as an endpoint iff it is a
non-directory entry with at least one executable permission bit set;
directories themselves are never registered, and the file-type bits beyond
is-a-directory are never examined. -/
theorem load_candidate_enumeration
    (discover : String → Except GoError (List ToolInfo))
    (dir : String) (rootEntries : List FSNode) :
    ∃ M : MCPMap,
      LoadMCPs discover dir rootEntries = .ok M ∧
      ∀ nm : String,
        (mapLookup M nm).isSome = true ↔ nm ∈ execNamesList rootEntries := by
  refine ⟨walkList discover dir rootEntries [], rfl, fun nm => ?_⟩
  rw [lookup_walkList_isSome discover dir rootEntries [] nm]
  simp [mapLookup]

/-- Keys outside the stripped names of a flat list of files are untouched
by the walk over those files. -/
theorem walkList_files_lookup_preserve
    (discover : String → Except GoError (List ToolInfo)) (dir : String) :
    ∀ (files : List (String × FileType × Nat)) (m : MCPMap) (key : String),
      key ∉ (files.map fun g => stripExt g.1) →
      mapLookup
        (walkList discover dir
          (files.map fun g => FSNode.file g.1 g.2.1 g.2.2) m) key =
        mapLookup m key
  | [], m, key, _ => rfl
  | g :: gs, m, key, h => by
      have hg : key ≠ stripExt g.1 := by
        intro he; exact h (by simp [he])
      have hgs : key ∉ gs.map fun g => stripExt g.1 := by
        intro he; exact h (by simp [he])
      rw [List.map_cons, walkList,
        walkList_files_lookup_preserve discover dir gs _ key hgs]
      rw [walkNode]
      by_cases hperm : g.2.2 &&& 0o111 == 0
      · rw [if_pos hperm]
      · rw [if_neg hperm]
        exact mapLookup_insert_ne m (stripExt g.1) _ hg

/-- After walking a flat list of executable files with pairwise distinct
stripped names, each file is registered under its stripped name with the
tools its own discovery reported. -/
theorem walkList_files_lookup
    (discover : String → Except GoError (List ToolInfo)) (dir : String) :
    ∀ (files : List (String × FileType × Nat)) (m : MCPMap),
      (∀ g ∈ files, g.2.2 &&& 0o111 ≠ 0) →
      ((files.map fun g => stripExt g.1).Nodup) →
      ∀ f ∈ files,
        mapLookup
          (walkList discover dir
            (files.map fun g => FSNode.file g.1 g.2.1 g.2.2) m)
          (stripExt f.1) =
          some ⟨stripExt f.1, dir ++ "/" ++ f.1,
            discoveredTools discover (dir ++ "/" ++ f.1)⟩
  | [], _, _, _, f, hf => absurd hf (List.not_mem_nil f)
  | g :: gs, m, hexec, hnodup, f, hf => by
      rw [List.map_cons] at hnodup
      have hnodup2 := List.nodup_cons.mp hnodup
      rcases List.mem_cons.mp hf with hfg | hfgs
      · subst hfg
        rw [List.map_cons, walkList]
        rw [walkList_files_lookup_preserve discover dir gs _ _ hnodup2.1]
        rw [walkNode]
        have hperm : ¬(f.2.2 &&& 0o111 == 0) := by
          simpa using hexec f (List.mem_cons_self f gs)
        rw [if_neg hperm]
        exact mapLookup_insert_self m (stripExt f.1) _
      · rw [List.map_cons, walkList]
        exact walkList_files_lookup discover dir gs _
          (fun g2 hg2 => hexec g2 (List.mem_cons_of_mem g hg2))
          hnodup2.2 f hfgs

/-- C5. Isolation of discovery failures: for a flat directory of
executable candidate files with distinct identifiers, the reload succeeds
whatever the discovery outcomes are; a candidate whose handshake failed is
still registered, with an empty tool list, and every candidate whose
handshake succeeded keeps its full discovered catalog. -/
theorem discovery_failure_isolated
    (discover : String → Except GoError (List ToolInfo)) (dir : String)
    (files : List (String × FileType × Nat))
    (hexec : ∀ g ∈ files, g.2.2 &&& 0o111 ≠ 0)
    (hnodup : (files.map fun g => stripExt g.1).Nodup) :
    ∃ M : MCPMap,
      LoadMCPs discover dir
        (files.map fun g => FSNode.file g.1 g.2.1 g.2.2) = .ok M ∧
      (∀ f ∈ files, ∀ err : GoError,
        discover (dir ++ "/" ++ f.1) = .error err →
        mapLookup M (stripExt f.1) =
          some ⟨stripExt f.1, dir ++ "/" ++ f.1, []⟩) ∧
      (∀ f ∈ files, ∀ ts : List ToolInfo,
        discover (dir ++ "/" ++ f.1) = .ok ts →
        mapLookup M (stripExt f.1) =
          some ⟨stripExt f.1, dir ++ "/" ++ f.1, ts⟩) := by
  refine ⟨_, rfl, ?_, ?_⟩
  · intro f hf err herr
    rw [walkList_files_lookup discover dir files [] hexec hnodup f hf]
    simp [discoveredTools, herr]
  · intro f hf ts hts
    rw [walkList_files_lookup discover dir files [] hexec hnodup f hf]
    simp [discoveredTools, hts]

/-- The discovery oracle of the C5 evaluation: the hello provider fails
its handshake, the calculator provider reports its three tools. -/
def disc5 : String → Except GoError (List ToolInfo) := fun path =>
  if path = "/mcps/hello-mcp" then
    .error (.transport "failed to start MCP" "exec format error")
  else .ok [⟨"add", "", []⟩, ⟨"multiply", "", []⟩, ⟨"divide", "", []⟩]

/-- Evaluation of C5: with the hello handshake failing, the reload
succeeds, `hello-mcp` is registered with no tools and `calculator-mcp`
keeps its three tools. -/
theorem discovery_failure_isolated_witness :
    ∃ M : MCPMap,
      LoadMCPs disc5 "/mcps"
        ([(("hello-mcp", FileType.regular, 0o755) : String × FileType × Nat),
          ("calculator-mcp", FileType.regular, 0o755)].map
          fun g => FSNode.file g.1 g.2.1 g.2.2) = .ok M ∧
      mapLookup M "hello-mcp" = some ⟨"hello-mcp", "/mcps/hello-mcp", []⟩ ∧
      mapLookup M "calculator-mcp" =
        some ⟨"calculator-mcp", "/mcps/calculator-mcp",
          [⟨"add", "", []⟩, ⟨"multiply", "", []⟩, ⟨"divide", "", []⟩]⟩ := by
  obtain ⟨M, hM, hfail, hok⟩ := discovery_failure_isolated disc5 "/mcps"
    [("hello-mcp", FileType.regular, 0o755),
     ("calculator-mcp", FileType.regular, 0o755)]
    (by decide) (by decide)
  refine ⟨M, hM, ?_, ?_⟩
  · have := hfail ("hello-mcp", FileType.regular, 0o755) (by simp)
      (.transport "failed to start MCP" "exec format error") rfl
    simpa using this
  · have := hok ("calculator-mcp", FileType.regular, 0o755) (by simp)
      [⟨"add", "", []⟩, ⟨"multiply", "", []⟩, ⟨"divide", "", []⟩] rfl
    simpa using this

/-- C6. Remote error passthrough: whenever the decoded `tools/call`
response carries a JSON-RPC error object, `ExecuteTool` fails with the
`MCP tool error` failure carrying that same code and message — whatever
result value the response may also have carried, none is returned. -/
theorem remote_error_passthrough
    (session : String → String → List (String × JsonValue) → SessionOutcome)
    (m : MCPMap) (toolName : String) (params : List (String × JsonValue))
    (info : MCPInfo) (localName : String) (r : JsonValue)
    (code : Int) (msg : String)
    (hres : GetMCPForTool m toolName = .ok (info, localName))
    (hsess : session info.path localName params =
      .response ⟨r, some ⟨code, msg⟩⟩) :
    ExecuteTool session m toolName params =
      .error (.mcpToolError msg code) := by
  simp [ExecuteTool, hres, runToolCall, hsess]

/-- The session oracle of the C6 evaluation: the provider answers
`tools/call` with the divide-by-zero JSON-RPC error object. -/
def sessDivZero :
    String → String → List (String × JsonValue) → SessionOutcome :=
  fun _ _ _ => .response ⟨.null, some ⟨-1, "cannot divide by zero"⟩⟩

/-- Evaluation of C6 at the error object of the spec:
code `-1`, message `cannot divide by zero`. -/
theorem remote_error_passthrough_witness :
    ExecuteTool sessDivZero [("calculator-mcp", calcInfo)]
      "calculator-mcp.divide" [] =
      .error (.mcpToolError "cannot divide by zero" (-1)) :=
  remote_error_passthrough sessDivZero [("calculator-mcp", calcInfo)]
    "calculator-mcp.divide" [] calcInfo "divide" .null (-1)
    "cannot divide by zero" rfl rfl

/-- C7. Dispatcher `tools/call` handling: a `tools/call` request is routed
to `handleToolsCall` with its id and decoded params; a resolution failure
yields a JSON-RPC error frame with code -32000 carrying the request id and
the failure text; a successful resolution followed by a successful
invocation yields the result frame; a failed invocation yields an error
frame carrying the failure's message. -/
theorem dispatch_tools_call
    (session : String → String → List (String × JsonValue) → SessionOutcome)
    (m : MCPMap) (id : JsonValue) (name : String)
    (args : List (String × JsonValue)) :
    (∀ req : RawRequest, req.method = "tools/call" →
      ProcessRequest session m req =
        handleToolsCall session m req.id req.params) ∧
    (∀ e : GoError, GetMCPForTool m name = .error e →
      handleToolsCall session m id ⟨name, args⟩ =
        .ok (.obj [("jsonrpc", .str "2.0"), ("id", id),
          ("error", .obj [("code", .num (-32000)),
            ("message",
              .str ("Failed to execute tool: " ++ e.render))])])) ∧
    (∀ (info : MCPInfo) (localName : String) (r : JsonValue),
      GetMCPForTool m name = .ok (info, localName) →
      runToolCall session info.path localName args = .ok r →
      handleToolsCall session m id ⟨name, args⟩ =
        .ok (.obj [("jsonrpc", .str "2.0"), ("id", id), ("result", r)])) ∧
    (∀ (info : MCPInfo) (localName : String) (e : GoError),
      GetMCPForTool m name = .ok (info, localName) →
      runToolCall session info.path localName args = .error e →
      handleToolsCall session m id ⟨name, args⟩ =
        .ok (.obj [("jsonrpc", .str "2.0"), ("id", id),
          ("error", .obj [("code", .num (-32000)),
            ("message",
              .str ("Failed to execute tool: " ++ e.render))])])) := by
  refine ⟨?_, ?_, ?_, ?_⟩
  · intro req hreq
    have : req.method ≠ "tools/list" := by rw [hreq]; decide
    simp [ProcessRequest, this, hreq]
  · intro e he
    simp [handleToolsCall, ExecuteTool, he]
  · intro info localName r hres hrun
    simp [handleToolsCall, ExecuteTool, hres, hrun]
  · intro info localName e hres hrun
    simp [handleToolsCall, ExecuteTool, hres, hrun]

/-- The session oracle of the C7 evaluation: `add` succeeds with 30,
`divide` answers with the divide-by-zero error object. -/
def sess7 : String → String → List (String × JsonValue) → SessionOutcome :=
  fun _ localName _ =>
    if localName = "add" then .response ⟨.num 30, none⟩
    else .response ⟨.null, some ⟨-1, "cannot divide by zero"⟩⟩

/-- Evaluation of C7: routing of a `tools/call` request, the -32000 frame
for an unknown provider, the result frame for a successful call, and the
error frame for a provider-reported failure, all carrying the id. -/
theorem dispatch_tools_call_witness :
    (ProcessRequest sess7 [("calculator-mcp", calcInfo)]
        ⟨"2.0", .num 7, "tools/call", ⟨"calculator-mcp.add", []⟩⟩ =
      handleToolsCall sess7 [("calculator-mcp", calcInfo)] (.num 7)
        ⟨"calculator-mcp.add", []⟩) ∧
    (handleToolsCall sess7 [("calculator-mcp", calcInfo)] (.num 7)
        ⟨"ghost.doSomething", []⟩ =
      .ok (.obj [("jsonrpc", .str "2.0"), ("id", .num 7),
        ("error", .obj [("code", .num (-32000)),
          ("message",
            .str "Failed to execute tool: MCP not found: ghost")])])) ∧
    (handleToolsCall sess7 [("calculator-mcp", calcInfo)] (.num 7)
        ⟨"calculator-mcp.add", []⟩ =
      .ok (.obj [("jsonrpc", .str "2.0"), ("id", .num 7),
        ("result", .num 30)])) ∧
    (handleToolsCall sess7 [("calculator-mcp", calcInfo)] (.num 7)
        ⟨"calculator-mcp.divide", []⟩ =
      .ok (.obj [("jsonrpc", .str "2.0"), ("id", .num 7),
        ("error", .obj [("code", .num (-32000)),
          ("message",
            .str "Failed to execute tool: MCP tool error: cannot divide by zero (code -1)")])])) :=
  ⟨(dispatch_tools_call sess7 [("calculator-mcp", calcInfo)] (.num 7)
      "calculator-mcp.add" []).1
      ⟨"2.0", .num 7, "tools/call", ⟨"calculator-mcp.add", []⟩⟩ rfl,
    (dispatch_tools_call sess7 [("calculator-mcp", calcInfo)] (.num 7)
      "ghost.doSomething" []).2.1 (.mcpNotFound "ghost") rfl,
    (dispatch_tools_call sess7 [("calculator-mcp", calcInfo)] (.num 7)
      "calculator-mcp.add" []).2.2.1 calcInfo "add" (.num 30) rfl rfl,
    (dispatch_tools_call sess7 [("calculator-mcp", calcInfo)] (.num 7)
      "calculator-mcp.divide" []).2.2.2 calcInfo "divide"
      (.mcpToolError "cannot divide by zero" (-1)) rfl rfl⟩

/-- C8. Unsupported-method behavior: a request whose method is neither
`tools/list` nor `tools/call` makes `ProcessRequest` fail with the
`method not implemented` error naming the method, with no success
response; no other method is handled. -/
theorem unsupported_method_not_implemented
    (session : String → String → List (String × JsonValue) → SessionOutcome)
    (m : MCPMap) (req : RawRequest)
    (h1 : req.method ≠ "tools/list") (h2 : req.method ≠ "tools/call") :
    ProcessRequest session m req =
      .error (.methodNotImplemented req.method) := by
  simp [ProcessRequest, h1, h2]

/-- Evaluation of C8 at the `initialize` method. -/
theorem unsupported_method_not_implemented_witness :
    ProcessRequest sess7 [("calculator-mcp", calcInfo)]
      ⟨"2.0", .num 1, "initialize", ⟨"", []⟩⟩ =
      .error (.methodNotImplemented "initialize") :=
  unsupported_method_not_implemented sess7 [("calculator-mcp", calcInfo)]
    ⟨"2.0", .num 1, "initialize", ⟨"", []⟩⟩ (by decide) (by decide)

/-! ### The reload mutation sequence matches the walk -/

theorem applyOps_append (m : MCPMap) (a b : List WriterOp) :
    applyOps m (a ++ b) = applyOps (applyOps m a) b := by
  simp [applyOps, List.foldl_append]

mutual
theorem applyOps_walkNodeOps
    (discover : String → Except GoError (List ToolInfo)) :
    ∀ (p : String) (e : FSNode) (m : MCPMap),
      applyOps m (walkNodeOps discover p e) = walkNode discover p e m
  | p, .file n ft perm, m => by
      rw [walkNodeOps, walkNode]
      by_cases h : perm &&& 0o111 == 0
      · simp [h, applyOps]
      · simp [h, applyOps, applyOp]
  | p, .dir n es, m => by
      rw [walkNodeOps, walkNode]
      exact applyOps_walkListOps discover (p ++ "/" ++ n) es m
theorem applyOps_walkListOps
    (discover : String → Except GoError (List ToolInfo)) :
    ∀ (p : String) (es : List FSNode) (m : MCPMap),
      applyOps m (walkListOps discover p es) = walkList discover p es m
  | _, [], _ => rfl
  | p, e :: es, m => by
      rw [walkListOps, walkList, applyOps_append,
        applyOps_walkNodeOps discover p e m,
        applyOps_walkListOps discover p es (walkNode discover p e m)]
end

/-- Running the reload's whole mutation sequence from any previous
snapshot produces exactly the `LoadMCPs` result: the clear discards the
old contents, then the walk's inserts build the new snapshot. -/
theorem applyOps_loadOps
    (discover : String → Except GoError (List ToolInfo))
    (dir : String) (entries : List FSNode) (pre : MCPMap) :
    LoadMCPs discover dir entries =
      .ok (applyOps pre (loadOps discover dir entries)) := by
  rw [LoadMCPs, loadOps]
  have h1 : applyOps pre (.clear :: walkListOps discover dir entries) =
      applyOps [] (walkListOps discover dir entries) := rfl
  rw [h1, applyOps_walkListOps discover dir entries []]

/-! ### The lock invariant -/

/-- The inductive invariant of the reader/reload transition system: before
the writer acquires the lock the map is the untouched pre-reload snapshot;
while the writer holds the lock no reader holds it and the map is the
prefix of the mutation sequence applied so far; after release the map is
the complete post-reload snapshot. -/
def SysInv (pre : MCPMap) (ops : List WriterOp) (s : SysState) : Prop :=
  (s.wphase = .idle → s.mcpMap = pre ∧ s.pending = ops) ∧
  (s.wphase = .holding → s.readers = 0 ∧
    ∃ applied, ops = applied ++ s.pending ∧
      s.mcpMap = applyOps pre applied) ∧
  (s.wphase = .done → s.mcpMap = applyOps pre ops ∧ s.pending = [])

theorem sysInv_init (pre : MCPMap) (ops : List WriterOp) :
    SysInv pre ops (initState pre ops) := by
  refine ⟨fun _ => ⟨rfl, rfl⟩, fun h => ?_, fun h => ?_⟩
  · exact absurd h (by simp [initState])
  · exact absurd h (by simp [initState])

theorem sysInv_step {pre : MCPMap} {ops : List WriterOp} {s t : SysState}
    (hinv : SysInv pre ops s) (hstep : SysStep s t) : SysInv pre ops t := by
  obtain ⟨hidle, hhold, hdone⟩ := hinv
  cases hstep with
  | wAcquire h0 hph =>
      obtain ⟨hmap, hpend⟩ := hidle hph
      refine ⟨fun h => ?_, fun _ => ?_, fun h => ?_⟩
      · exact absurd (h : WPhase.holding = WPhase.idle) (by simp)
      · exact ⟨h0, [], hpend.symm, hmap⟩
      · exact absurd (h : WPhase.holding = WPhase.done) (by simp)
  | wOp op rest hph hpend =>
      obtain ⟨hr, applied, hops, hmap⟩ := hhold hph
      refine ⟨fun h => ?_, fun _ => ?_, fun h => ?_⟩
      · have h2 : s.wphase = WPhase.idle := h
        rw [hph] at h2
        exact absurd h2 (by simp)
      · refine ⟨hr, applied ++ [op], ?_, ?_⟩
        · show ops = (applied ++ [op]) ++ rest
          rw [hops, hpend, List.append_assoc]
          rfl
        · show applyOp s.mcpMap op = applyOps pre (applied ++ [op])
          rw [applyOps_append, hmap]
          rfl
      · have h2 : s.wphase = WPhase.done := h
        rw [hph] at h2
        exact absurd h2 (by simp)
  | wRelease hph hpend =>
      obtain ⟨hr, applied, hops, hmap⟩ := hhold hph
      have hopsa : ops = applied := by rw [hops, hpend, List.append_nil]
      refine ⟨fun h => ?_, fun h => ?_, fun _ => ?_⟩
      · exact absurd (h : WPhase.done = WPhase.idle) (by simp)
      · exact absurd (h : WPhase.done = WPhase.holding) (by simp)
      · exact ⟨by rw [hmap, hopsa], hpend⟩
  | rAcquire hph =>
      refine ⟨fun h => hidle h, fun h => ?_, fun h => hdone h⟩
      · exact absurd (h : s.wphase = WPhase.holding) hph
  | rRelease hr =>
      refine ⟨fun h => hidle h, fun h => ?_, fun h => hdone h⟩
      · exact absurd (hhold h).1 (by omega)

theorem sysInv_reachable {pre : MCPMap} {ops : List WriterOp} {s : SysState}
    (h : SysReachable (initState pre ops) s) : SysInv pre ops s := by
  induction h with
  | refl => exact sysInv_init pre ops
  | tail _ hstep ih => exact sysInv_step ih hstep

/-- C9. Concurrent read/reload safety: in every interleaving of readers
with one in-flight `LoadMCPs`, any configuration in which a reader holds
the read lock (and can thus observe the map, as `GetAllTools` does) shows
either the complete pre-reload snapshot or the complete post-reload
snapshot — never a partially built one. -/
theorem concurrent_read_reload_safety
    (discover : String → Except GoError (List ToolInfo))
    (dir : String) (entries : List FSNode) (pre : MCPMap) (s : SysState)
    (hreach : SysReachable
      (initState pre (loadOps discover dir entries)) s)
    (hread : 0 < s.readers) :
    (s.mcpMap = pre ∧ GetAllTools s.mcpMap = GetAllTools pre) ∨
    LoadMCPs discover dir entries = .ok s.mcpMap := by
  have hinv := sysInv_reachable hreach
  obtain ⟨hidle, hhold, hdone⟩ := hinv
  cases hph : s.wphase with
  | idle =>
      obtain ⟨hmap, _⟩ := hidle hph
      exact Or.inl ⟨hmap, by rw [hmap]⟩
  | holding =>
      obtain ⟨h0, _⟩ := hhold hph
      omega
  | done =>
      obtain ⟨hmap, _⟩ := hdone hph
      refine Or.inr ?_
      rw [hmap]
      exact applyOps_loadOps discover dir entries pre

/-- The pre-reload snapshot of the C9 evaluation. -/
def pre9 : MCPMap := [("hello-mcp", helloInfo)]

/-- The directory contents of the C9 evaluation. -/
def entries9 : List FSNode := [FSNode.file "calculator-mcp" .regular 0o755]

/-- The C9 evaluation configuration: one reader holds the read lock before
the reload has acquired the write lock. -/
def sWit9 : SysState :=
  { readers := 1, wphase := .idle, mcpMap := pre9,
    pending := loadOps discNone "/mcps" entries9 }

/-- Evaluation of C9 on a concrete two-step schedule: from the initial
configuration a reader acquires the read lock, and its observation is one
of the two complete snapshots. -/
theorem concurrent_read_reload_safety_witness :
    (sWit9.mcpMap = pre9 ∧ GetAllTools sWit9.mcpMap = GetAllTools pre9) ∨
    LoadMCPs discNone "/mcps" entries9 = .ok sWit9.mcpMap :=
  concurrent_read_reload_safety discNone "/mcps" entries9 pre9 sWit9
    (SysReachable.tail SysReachable.refl
      (SysStep.rAcquire (initState pre9 (loadOps discNone "/mcps" entries9))
        (by decide)))
    (by decide)

end MCPNet
